import Mathlib

/-!
Verification development for the Bear Chat transcript collector and
summarizer.  The JavaScript source in scripts/collector.js is embedded
shallowly: strings are Lean strings (lists of characters), instants are
minutes since the Unix epoch as integers, and the ambient clock and the
local-time offset of the host become explicit parameters.
-/

namespace BearKnowledge

/-- Apostrophe character, used to build keyword strings. -/
def aposC : Char := Char.ofNat 39

/-- Apostrophe as a one-character string. -/
def aposS : String := ⟨[aposC]⟩

/-- Model of the JavaScript string split on a newline character:
splits a character list at every newline, keeping empty pieces. -/
def splitNlAux : List Char → List (List Char)
  | [] => [[]]
  | c :: cs =>
    if c = '\n' then [] :: splitNlAux cs
    else
      match splitNlAux cs with
      | [] => [[c]]
      | l :: ls => (c :: l) :: ls

/-- Model of content.split on newline from the source. -/
def jsSplitNl (s : String) : List String :=
  (splitNlAux s.data).map (fun l => ⟨l⟩)

/-- Model of the JavaScript array join with a newline separator. -/
def joinNl : List String → String
  | [] => ""
  | [s] => s
  | s :: rest => s ++ "\n" ++ joinNl rest

/-- Model of the JavaScript startsWith test. -/
def jsStartsWith (s pre : String) : Bool :=
  pre.data.isPrefixOf s.data

/-- Does the needle occur as a contiguous subsequence of the haystack? -/
def containsSeq (needle : List Char) : List Char → Bool
  | [] => needle.isEmpty
  | c :: cs => needle.isPrefixOf (c :: cs) || containsSeq needle cs

/-- Model of the JavaScript includes test on strings. -/
def jsIncludes (s sub : String) : Bool :=
  containsSeq sub.data s.data

/-- Model of toLowerCase: lower-case every character. -/
def jsToLower (s : String) : String :=
  ⟨s.data.map Char.toLower⟩

/-- Model of slice from index zero: take the first n characters. -/
def jsSlice (s : String) (n : Nat) : String :=
  ⟨s.data.take n⟩

/-- Model of splitting at the letter T and keeping the first piece,
as in the toISOString().split call of the source. -/
def jsHeadBeforeT (s : String) : String :=
  ⟨s.data.takeWhile (fun c => c ≠ 'T')⟩

/-! ### Time model

Instants are minutes since the Unix epoch (UTC).  The local clock of the
host is modelled by a fixed offset tz in minutes: the local reading of
instant t is t + tz.  Daylight-saving transitions are outside the model. -/

/-- Zero-padded two-digit decimal rendering of a number below one hundred,
as produced by the two-digit locale time options of the source. -/
def pad2 (n : Nat) : String :=
  ⟨[Nat.digitChar (n / 10 % 10), Nat.digitChar (n % 10)]⟩

/-- Zero-padded four-digit decimal rendering, for the year field of an
ISO date. -/
def pad4 (n : Nat) : String :=
  ⟨[Nat.digitChar (n / 1000 % 10), Nat.digitChar (n / 100 % 10),
    Nat.digitChar (n / 10 % 10), Nat.digitChar (n % 10)]⟩

/-- Civil calendar date (year, month, day) of a count of days since
1970-01-01, by the standard era-based algorithm. -/
def civilFromDays (z : Int) : Int × Int × Int :=
  let z' := z + 719468
  let era := z'.fdiv 146097
  let doe := z' - era * 146097
  let yoe := (doe - doe / 1460 + doe / 36524 - doe / 146096) / 365
  let y := yoe + era * 400
  let doy := doe - (365 * yoe + yoe / 4 - yoe / 100)
  let mp := (5 * doy + 2) / 153
  let d := doy - (153 * mp + 2) / 5 + 1
  let m := mp + (if mp < 10 then 3 else -9)
  (y + (if m ≤ 2 then 1 else 0), m, d)

/-- Days since 1970-01-01 of a civil calendar date (inverse of
civilFromDays on valid dates). -/
def daysFromCivil (y m d : Int) : Int :=
  let y' := if m ≤ 2 then y - 1 else y
  let era := y'.fdiv 400
  let yoe := y' - era * 400
  let mp := (m + 9).emod 12
  let doy := (153 * mp + 2) / 5 + d - 1
  let doe := yoe * 365 + yoe / 4 - yoe / 100 + doy
  era * 146097 + doe - 719468

/-- UTC calendar date of an instant, rendered YYYY-MM-DD: the date part
of toISOString in the source. -/
def isoDate (t : Int) : String :=
  let days := t.fdiv 1440
  let c := civilFromDays days
  pad4 c.1.toNat ++ "-" ++ pad2 c.2.1.toNat ++ "-" ++ pad2 c.2.2.toNat

/-- Full toISOString rendering of a minute-resolution instant. -/
def toIso (t : Int) : String :=
  let mo := (t.emod 1440).toNat
  isoDate t ++ "T" ++ pad2 (mo / 60) ++ ":" ++ pad2 (mo % 60) ++ ":00.000Z"

/-- The two-digit hour and minute local-time rendering used for message
headers (toLocaleTimeString with two-digit hour and minute). -/
def localeTimeHHMM (t tz : Int) : String :=
  let mo := ((t + tz).emod 1440).toNat
  pad2 (mo / 60) ++ ":" ++ pad2 (mo % 60)

/-- The instant whose local civil reading under offset tz is the given
date and time of day. -/
def mkLocalMin (y m d hh mm : Int) (tz : Int) : Int :=
  daysFromCivil y m d * 1440 + hh * 60 + mm - tz

/-! ### Transcript codec (formatTranscript and parseTranscript) -/

/-- A decoded message: the shape produced by parseTranscript. -/
structure Message where
  time : String
  author : String
  content : String
  deriving DecidableEq, Repr

/-- A raw message record as returned by the fetch collaborator and
consumed by formatTranscript: creation instant, optional display name,
user id, optional content. -/
structure RawMsg where
  createdAt : Int
  displayName : Option String
  userId : String
  content : Option String
  deriving DecidableEq, Repr

/-- JavaScript or-else on strings: an absent or empty string falls
through to the default. -/
def jsOr (o : Option String) (dflt : String) : String :=
  match o with
  | some s => if s = "" then dflt else s
  | none => dflt

/-- Author of a raw message: displayName or else userId. -/
def rawAuthor (m : RawMsg) : String := jsOr m.displayName m.userId

/-- Content of a raw message: content or else the empty string. -/
def rawContent (m : RawMsg) : String := jsOr m.content ""

/-- The header-line pattern of parseTranscript: three hashes, a space,
two digits, a colon, two digits, a space, an em-dash, a space, then a
non-empty remainder with no newline.  Returns the time and author
capture groups on a match. -/
def matchHeader (line : String) : Option (String × String) :=
  match line.data with
  | '#' :: '#' :: '#' :: ' ' :: d1 :: d2 :: ':' :: d3 :: d4 :: ' ' :: '—' :: ' ' :: rest =>
    if d1.isDigit && d2.isDigit && d3.isDigit && d4.isDigit
        && !rest.isEmpty && !rest.contains '\n'
    then some (⟨[d1, d2, ':', d3, d4]⟩, ⟨rest⟩)
    else none
  | _ => none

/-- The content-accumulation step of parseTranscript: append a line to
the current content, inserting a newline separator only when content
has already started. -/
def appendContent (cur line : String) : String :=
  cur ++ (if cur = "" then "" else "\n") ++ line

/-- The line scan of parseTranscript, carrying the currently open
message. -/
def parseLines : List String → Option Message → List Message
  | [], cur =>
    match cur with
    | some m => [m]
    | none => []
  | l :: ls, cur =>
    match matchHeader l with
    | some (t, a) =>
      match cur with
      | some m => m :: parseLines ls (some ⟨t, a, ""⟩)
      | none => parseLines ls (some ⟨t, a, ""⟩)
    | none =>
      match cur with
      | some m =>
        if jsStartsWith l "# " then parseLines ls (some m)
        else parseLines ls (some { m with content := appendContent m.content l })
      | none => parseLines ls none

/-- parseTranscript from the source: split the text into lines and scan
them. -/
def parseTranscript (content : String) : List Message :=
  parseLines (jsSplitNl content) none

/-- The per-message block of lines pushed by formatTranscript, for a
message already reduced to time, author and content strings. -/
def msgBlock (m : Message) : List String :=
  ["### " ++ m.time ++ " — " ++ m.author, "", m.content, ""]

/-- Encoding of decoded-shape messages: the line structure of
formatTranscript with the time and author fields used directly, under a
given channel name and header date string. -/
def encodeMsgs (msgs : List Message) (channel dateStr : String) : String :=
  joinNl (("# " ++ channel ++ " — " ++ dateStr) :: "" :: msgs.flatMap msgBlock)

/-- Reduction of a raw message to the decoded shape used in its block:
locale time of its creation instant, or-else author, or-else content. -/
def toMessage (tz : Int) (m : RawMsg) : Message :=
  ⟨localeTimeHHMM m.createdAt tz, rawAuthor m, rawContent m⟩

/-- formatTranscript from the source.  The ambient clock read by the
header line (new Date) is the explicit parameter now; tz is the local
offset used by the locale time rendering. -/
def formatTranscript (messages : List RawMsg) (channel : String) (now tz : Int) : String :=
  joinNl (("# " ++ channel ++ " — " ++ isoDate now) :: "" ::
    messages.flatMap (fun m => msgBlock (toMessage tz m)))

/-! ### Date window calculator (getDateRange) -/

/-- The record returned by getDateRange. -/
structure DateRange where
  after : String
  before : String
  dateStr : String
  deriving DecidableEq, Repr

/-- getDateRange from the source.  The ambient clock (new Date) is the
explicit parameter now.  Setting hours in local time is modelled through
the fixed offset tz: the local day of now is the floor of (now + tz)
over 1440. -/
def getDateRange (now tz : Int) : DateRange :=
  let localDay := (now + tz).fdiv 1440
  let today3AM := localDay * 1440 + 180 - tz
  let yesterday345 := (localDay - 1) * 1440 + 225 - tz
  { after := toIso yesterday345
    before := toIso today3AM
    dateStr := jsHeadBeforeT (toIso yesterday345) }

/-! ### Signal classifier (summarizeChannel) -/

/-- A decision, action or question entry of a SignalSet. -/
structure Entry where
  who : String
  what : String
  deriving DecidableEq, Repr

/-- A link entry of a SignalSet. -/
structure LinkEntry where
  who : String
  url : String
  deriving DecidableEq, Repr

/-- The four ordered signal sequences produced by summarizeChannel. -/
structure SignalSet where
  decisions : List Entry
  actions : List Entry
  links : List LinkEntry
  questions : List Entry
  deriving DecidableEq, Repr

/-- Keyword with an apostrophe: lets-space. -/
def kwLets : String := "let" ++ aposS ++ "s "

/-- Keyword with an apostrophe: well-space. -/
def kwWell : String := "we" ++ aposS ++ "ll "

/-- Keyword with an apostrophe: ill-space. -/
def kwIll : String := "i" ++ aposS ++ "ll "

/-- The decision trigger test of summarizeChannel, on the lower-cased
content. -/
def isDecisionContent (lc : String) : Bool :=
  jsIncludes lc "decyzj" || jsIncludes lc "decided" ||
  jsIncludes lc kwLets || jsIncludes lc kwWell ||
  jsIncludes lc "so:" || jsIncludes lc "plan:" ||
  jsIncludes lc "✓" || jsIncludes lc "✅"

/-- The action trigger test of summarizeChannel, on the lower-cased
content. -/
def isActionContent (lc : String) : Bool :=
  jsIncludes lc "todo" || jsIncludes lc "task" ||
  jsIncludes lc "action" || jsIncludes lc kwIll ||
  jsIncludes lc "will " || jsIncludes lc "should "

/-- The question test of summarizeChannel, on the lower-cased content:
a question mark present and no occurrence of http. -/
def isQuestionContent (lc : String) : Bool :=
  jsIncludes lc "?" && !(jsIncludes lc "http")

/-- A character that can continue a URL token: anything that is not
whitespace and not a closing parenthesis. -/
def urlChar (c : Char) : Bool :=
  !(c.isWhitespace || c = ')')

/-- Try to match the URL pattern at the start of the character list:
http or https, the scheme separator, then one or more URL characters.
Returns the match and the remainder after it. -/
def tryUrlAt (cs : List Char) : Option (List Char × List Char) :=
  if "https://".data.isPrefixOf cs then
    if ((cs.drop 8).takeWhile urlChar).isEmpty then none
    else some ("https://".data ++ (cs.drop 8).takeWhile urlChar,
      (cs.drop 8).drop ((cs.drop 8).takeWhile urlChar).length)
  else if "http://".data.isPrefixOf cs then
    if ((cs.drop 7).takeWhile urlChar).isEmpty then none
    else some ("http://".data ++ (cs.drop 7).takeWhile urlChar,
      (cs.drop 7).drop ((cs.drop 7).takeWhile urlChar).length)
  else none

/-- The global URL scan of summarizeChannel: successive leftmost
non-overlapping matches of the URL pattern.  The first argument is
fuel; a successful match always consumes at least one character, so
fuel equal to the length of the input never runs out. -/
def extractUrlsAux : Nat → List Char → List String
  | _, [] => []
  | 0, _ :: _ => []
  | fuel + 1, c :: cs =>
    match tryUrlAt (c :: cs) with
    | some (m, rest) => String.mk m :: extractUrlsAux fuel rest
    | none => extractUrlsAux fuel cs

/-- All URL tokens of a content string, in order of appearance. -/
def extractUrls (s : String) : List String :=
  extractUrlsAux s.data.length s.data

/-- summarizeChannel from the source: evaluate every message
independently in order, collecting the four categories. -/
def summarizeChannel : List Message → SignalSet
  | [] => ⟨[], [], [], []⟩
  | msg :: rest =>
    let s := summarizeChannel rest
    let lc := jsToLower msg.content
    { decisions :=
        (if isDecisionContent lc then [⟨msg.author, jsSlice msg.content 200⟩] else [])
          ++ s.decisions
      actions :=
        (if isActionContent lc then [⟨msg.author, jsSlice msg.content 200⟩] else [])
          ++ s.actions
      links := (extractUrls msg.content).map (fun u => ⟨msg.author, u⟩) ++ s.links
      questions :=
        (if isQuestionContent lc then [⟨msg.author, jsSlice msg.content 150⟩] else [])
          ++ s.questions }

/-! ### Summary renderer (formatSummary) -/

/-- A decision or action bullet line: bold author, then the first 150
characters of the stored excerpt, then an ellipsis. -/
def excerptBullet (e : Entry) : String :=
  "- **" ++ e.who ++ "**: " ++ jsSlice e.what 150 ++ "..."

/-- A link bullet line. -/
def linkBullet (l : LinkEntry) : String :=
  "- " ++ l.url ++ " (" ++ l.who ++ ")"

/-- A question bullet line: the stored excerpt with a question mark
appended. -/
def questionBullet (e : Entry) : String :=
  "- **" ++ e.who ++ "**: " ++ e.what ++ "?"

/-- The decision section lines of formatSummary: present only when
non-empty, capped at the first five entries. -/
def decisionSection (s : SignalSet) : List String :=
  if s.decisions.length > 0 then
    "## Key Decisions" :: "" :: (s.decisions.take 5).map excerptBullet ++ [""]
  else []

/-- The action section lines of formatSummary: present only when
non-empty, capped at the first five entries. -/
def actionSection (s : SignalSet) : List String :=
  if s.actions.length > 0 then
    "## Action Items" :: "" :: (s.actions.take 5).map excerptBullet ++ [""]
  else []

/-- The link section lines of formatSummary: present only when
non-empty, capped at the first ten entries. -/
def linkSection (s : SignalSet) : List String :=
  if s.links.length > 0 then
    "## Links Shared" :: "" :: (s.links.take 10).map linkBullet ++ [""]
  else []

/-- The question section lines of formatSummary: present only when
non-empty, capped at the first five entries. -/
def questionSection (s : SignalSet) : List String :=
  if s.questions.length > 0 then
    "## Open Questions" :: "" :: (s.questions.take 5).map questionBullet ++ [""]
  else []

/-- formatSummary from the source: header, message count, rule, then
the four sections in fixed order. -/
def formatSummary (channel : String) (messages : List Message) (summary : SignalSet) : String :=
  joinNl (["# " ++ channel ++ " — Summary", "",
           "**Messages:** " ++ toString messages.length, "", "---", ""]
    ++ decisionSection summary ++ actionSection summary
    ++ linkSection summary ++ questionSection summary)

/-! ### Per-channel pipeline steps of the two main loops -/

/-- The pure per-file step of the summarizer main loop: parse the
transcript, skip (producing no output) when fewer than three messages
were decoded, otherwise render the summary. -/
def summarizeFile (channel content : String) : Option String :=
  let messages := parseTranscript content
  if messages.length < 3 then none
  else some (formatSummary channel messages (summarizeChannel messages))

/-- The pure per-channel step of the collector main loop: skip
(producing no output file) when the fetched message list is empty,
otherwise format the transcript. -/
def collectChannel (messages : List RawMsg) (channel : String) (now tz : Int) : Option String :=
  if messages.length = 0 then none
  else some (formatTranscript messages channel now tz)

/-! ### Specification-side definitions used to state the claims -/

/-- Truncation of a SignalSet to the per-category caps the
specification names: five decisions, five actions, ten links, five
questions, each a prefix. -/
def truncateSet (s : SignalSet) : SignalSet :=
  ⟨s.decisions.take 5, s.actions.take 5, s.links.take 10, s.questions.take 5⟩

/-- Append one newline to a non-empty content field, leaving empty
content unchanged: the exact change the decoder applies to each
encoded message. -/
def addTrailingNl (m : Message) : Message :=
  { m with content := if m.content = "" then "" else m.content ++ "\n" }

/-- Shape test for a header time field: two digits, a colon, two
digits. -/
def timeShape (t : String) : Bool :=
  match t.data with
  | [d1, d2, c, d3, d4] => d1.isDigit && d2.isDigit && (c = ':') && d3.isDigit && d4.isDigit
  | _ => false

/-- A string free of newline characters. -/
def noNl (s : String) : Bool :=
  !s.data.contains '\n'

/-- Well-formedness of one decoded-shape message for the round-trip
statements: a shaped time, a non-empty single-line author, and
single-line content that does not begin a heading. -/
def msgOk (m : Message) : Bool :=
  timeShape m.time && (m.author ≠ "") && noNl m.author && noNl m.content
    && !jsStartsWith m.content "### " && !jsStartsWith m.content "# "

/-- Well-formedness of a raw message for the round-trip statements:
its derived author is non-empty and single-line, and its derived
content is single-line and does not begin a heading. -/
def rawOk (m : RawMsg) : Bool :=
  (rawAuthor m ≠ "") && noNl (rawAuthor m) && noNl (rawContent m)
    && !jsStartsWith (rawContent m) "### " && !jsStartsWith (rawContent m) "# "

/-- The content a message accumulates from the lines scanned after its
header: the fold the parser applies to each non-heading line. -/
def contentFold (m : Message) (ls : List String) : Message :=
  ls.foldl (fun acc l => if jsStartsWith l "# " then acc
    else { acc with content := appendContent acc.content l }) m

/-! ### Infrastructure lemmas on the string model -/

@[simp]
lemma strMk_data (s : String) : (⟨s.data⟩ : String) = s := by
  cases s
  rfl

lemma str_empty_append (s : String) : "" ++ s = s := by
  cases s
  rfl

lemma str_append_empty (s : String) : s ++ "" = s := by
  apply String.ext
  rw [String.data_append]
  exact List.append_nil _

lemma splitNlAux_no_nl {l : List Char} (h : '\n' ∉ l) : splitNlAux l = [l] := by
  induction l with
  | nil => rfl
  | cons c cs ih =>
    have hc : ¬ c = '\n' := fun hc => h (by simp [hc])
    have hcs : '\n' ∉ cs := fun hm => h (by simp [hm])
    simp [splitNlAux, hc, ih hcs]

lemma splitNlAux_append {xs : List Char} (ys : List Char) (h : '\n' ∉ xs) :
    splitNlAux (xs ++ '\n' :: ys) = xs :: splitNlAux ys := by
  induction xs with
  | nil => simp [splitNlAux]
  | cons c cs ih =>
    have hc : ¬ c = '\n' := fun hc => h (by simp [hc])
    have hcs : '\n' ∉ cs := fun hm => h (by simp [hm])
    conv_lhs => rw [List.cons_append]; rw [splitNlAux]
    rw [if_neg hc, ih hcs]

lemma noNl_mem {s : String} (h : noNl s = true) : '\n' ∉ s.data := by
  intro hm
  have hc : s.data.contains '\n' = true := by
    have := List.elem_eq_true_of_mem hm
    simpa [List.contains] using this
  simp [noNl, hc] at h
  exact h hm

lemma jsSplitNl_joinNl {ls : List String} (h0 : ls ≠ [])
    (h : ∀ s ∈ ls, noNl s = true) : jsSplitNl (joinNl ls) = ls := by
  induction ls with
  | nil => exact absurd rfl h0
  | cons s rest ih =>
    cases rest with
    | nil =>
      simp only [joinNl, jsSplitNl]
      rw [splitNlAux_no_nl (noNl_mem (h s (by simp)))]
      simp
    | cons s2 rest2 =>
      have hdata : (s ++ "\n" ++ joinNl (s2 :: rest2)).data
          = s.data ++ '\n' :: (joinNl (s2 :: rest2)).data := by
        rw [String.data_append, String.data_append]
        rw [List.append_assoc]
        rfl
      simp only [joinNl, jsSplitNl]
      rw [hdata, splitNlAux_append _ (noNl_mem (h s (by simp)))]
      have := ih (by simp) (fun x hx => h x (by simp [hx]))
      simp only [jsSplitNl] at this
      simp [this]

lemma noNl_iff (s : String) : noNl s = true ↔ '\n' ∉ s.data := by
  simp [noNl, List.contains]

lemma digitChar_isDigit {j : Nat} (h : j < 10) : (Nat.digitChar j).isDigit = true := by
  interval_cases j <;> decide

lemma digitChar_ne_nl {j : Nat} (h : j < 10) : Nat.digitChar j ≠ '\n' := by
  interval_cases j <;> decide

lemma digitChar_ne_T {j : Nat} (h : j < 10) : Nat.digitChar j ≠ 'T' := by
  interval_cases j <;> decide

lemma msgOk_unpack {m : Message} (h : msgOk m = true) :
    timeShape m.time = true ∧ m.author ≠ "" ∧ noNl m.author = true
      ∧ noNl m.content = true ∧ jsStartsWith m.content "### " = false
      ∧ jsStartsWith m.content "# " = false := by
  simp only [msgOk, Bool.and_eq_true, Bool.not_eq_true', decide_eq_true_eq] at h
  exact ⟨h.1.1.1.1.1, h.1.1.1.1.2, h.1.1.1.2, h.1.1.2, h.1.2, h.2⟩

lemma timeShape_unpack {t : String} (h : timeShape t = true) :
    ∃ d1 d2 d3 d4 : Char, t.data = [d1, d2, ':', d3, d4]
      ∧ d1.isDigit = true ∧ d2.isDigit = true ∧ d3.isDigit = true ∧ d4.isDigit = true := by
  unfold timeShape at h
  split at h
  · rename_i d1 d2 c d3 d4 heq
    simp only [Bool.and_eq_true, decide_eq_true_eq] at h
    obtain ⟨⟨⟨⟨h1, h2⟩, hc⟩, h3⟩, h4⟩ := h
    subst hc
    exact ⟨d1, d2, d3, d4, heq, h1, h2, h3, h4⟩
  · exact absurd h (by simp)

lemma author_data_ne_nil {m : Message} (h : m.author ≠ "") : m.author.data ≠ [] := by
  intro hd
  apply h
  apply String.ext
  simpa using hd

lemma matchHeader_block {m : Message} (h : msgOk m = true) :
    matchHeader ("### " ++ m.time ++ " — " ++ m.author) = some (m.time, m.author) := by
  obtain ⟨ht, ha, hanl, _, _, _⟩ := msgOk_unpack h
  obtain ⟨d1, d2, d3, d4, heq, h1, h2, h3, h4⟩ := timeShape_unpack ht
  have hd : ("### " ++ m.time ++ " — " ++ m.author).data
      = '#' :: '#' :: '#' :: ' ' :: d1 :: d2 :: ':' :: d3 :: d4
          :: ' ' :: '—' :: ' ' :: m.author.data := by
    rw [String.data_append, String.data_append, String.data_append, heq]
    rfl
  have hne : m.author.data.isEmpty = false := by
    simp [List.isEmpty_iff]
    exact author_data_ne_nil ha
  have hnl : m.author.data.contains '\n' = false := by
    have := noNl_mem hanl
    simp [List.contains]
    exact this
  unfold matchHeader
  rw [hd]
  split
  · rename_i e1 e2 e3 e4 rest heq2
    simp only [List.cons.injEq] at heq2
    obtain ⟨-, -, -, -, hb1, hb2, -, hb3, hb4, -, -, -, hbr⟩ := heq2
    subst hb1
    subst hb2
    subst hb3
    subst hb4
    subst hbr
    rw [if_pos (by
      simp [h1, h2, h3, h4, hne]
      exact noNl_mem hanl)]
    rw [← heq]
  · rename_i hno
    exact absurd rfl (hno d1 d2 d3 d4 m.author.data)

lemma matchHeader_not_hhh {l : String} (h : jsStartsWith l "### " = false) :
    matchHeader l = none := by
  unfold matchHeader
  split
  · rename_i d1 d2 d3 d4 rest heq
    exfalso
    have : jsStartsWith l "### " = true := by
      unfold jsStartsWith
      rw [heq]
      simp [List.isPrefixOf]
    rw [this] at h
    exact Bool.noConfusion h
  · rfl

lemma matchHeader_empty : matchHeader "" = none := by rfl

lemma matchHeader_top (r : String) : matchHeader ("# " ++ r) = none := by
  have hd : ("# " ++ r).data = '#' :: ' ' :: r.data := by
    rw [String.data_append]
    rfl
  unfold matchHeader
  rw [hd]
  split
  · rename_i heq
    simp at heq
  · rfl

lemma appendContent_empty_left (l : String) : appendContent "" l = l := by
  simp [appendContent, str_empty_append]

lemma appendContent_trailing (c : String) :
    appendContent c "" = (if c = "" then "" else c ++ "\n") := by
  unfold appendContent
  by_cases hc : c = "" <;> simp [hc, str_append_empty]

lemma noNl_append {a b : String} (ha : noNl a = true) (hb : noNl b = true) :
    noNl (a ++ b) = true := by
  rw [noNl_iff] at ha hb ⊢
  rw [String.data_append]
  simp only [List.mem_append]
  intro hmem
  cases hmem with
  | inl hx => exact ha hx
  | inr hx => exact hb hx

lemma isDigit_ne_nl {c : Char} (h : c.isDigit = true) : c ≠ '\n' := by
  intro hc
  subst hc
  exact Bool.noConfusion h

lemma noNl_time {t : String} (h : timeShape t = true) : noNl t = true := by
  obtain ⟨d1, d2, d3, d4, heq, h1, h2, h3, h4⟩ := timeShape_unpack h
  rw [noNl_iff, heq]
  intro hmem
  simp only [List.mem_cons, List.not_mem_nil, or_false] at hmem
  rcases hmem with h' | h' | h' | h' | h'
  · exact isDigit_ne_nl h1 h'.symm
  · exact isDigit_ne_nl h2 h'.symm
  · exact absurd h' (by decide)
  · exact isDigit_ne_nl h3 h'.symm
  · exact isDigit_ne_nl h4 h'.symm

lemma parseLines_cons_header {l t a : String} (h : matchHeader l = some (t, a))
    (ls : List String) :
    parseLines (l :: ls) none = parseLines ls (some ⟨t, a, ""⟩)
      ∧ ∀ cur, parseLines (l :: ls) (some cur) = cur :: parseLines ls (some ⟨t, a, ""⟩) :=
  ⟨by simp only [parseLines, h], fun cur => by simp only [parseLines, h]⟩

lemma parseLines_cons_content {l : String} (hnone : matchHeader l = none)
    (hns : jsStartsWith l "# " = false) (ls : List String) (m : Message) :
    parseLines (l :: ls) (some m)
      = parseLines ls (some { m with content := appendContent m.content l }) := by
  simp only [parseLines, hnone, hns, Bool.false_eq_true, if_false]

lemma parseLines_cons_skip {l : String} (hnone : matchHeader l = none) (ls : List String) :
    parseLines (l :: ls) none = parseLines ls none := by
  simp only [parseLines, hnone]

lemma jsStartsWith_empty_top : jsStartsWith "" "# " = false := rfl

lemma parseLines_msgBlock {m : Message} (hm : msgOk m = true) (tail : List String) :
    parseLines (msgBlock m ++ tail) none = parseLines tail (some (addTrailingNl m))
      ∧ ∀ cur, parseLines (msgBlock m ++ tail) (some cur)
          = cur :: parseLines tail (some (addTrailingNl m)) := by
  obtain ⟨ht, ha, hanl, hcnl, hc3, hc1⟩ := msgOk_unpack hm
  have hhdr := matchHeader_block hm
  have hrest : parseLines ("" :: m.content :: "" :: tail) (some ⟨m.time, m.author, ""⟩)
      = parseLines tail (some (addTrailingNl m)) := by
    rw [parseLines_cons_content matchHeader_empty jsStartsWith_empty_top]
    rw [appendContent_empty_left]
    rw [parseLines_cons_content (matchHeader_not_hhh hc3) hc1]
    rw [appendContent_empty_left]
    rw [parseLines_cons_content matchHeader_empty jsStartsWith_empty_top]
    rw [appendContent_trailing]
    rfl
  have hblock : msgBlock m ++ tail
      = ("### " ++ m.time ++ " — " ++ m.author) :: "" :: m.content :: "" :: tail := rfl
  constructor
  · rw [hblock, (parseLines_cons_header hhdr _).1, hrest]
  · intro cur
    rw [hblock, (parseLines_cons_header hhdr _).2 cur, hrest]

lemma parseLines_blocks {msgs : List Message} (h : ∀ m ∈ msgs, msgOk m = true) :
    parseLines (msgs.flatMap msgBlock) none = msgs.map addTrailingNl
      ∧ ∀ cur, parseLines (msgs.flatMap msgBlock) (some cur)
          = cur :: msgs.map addTrailingNl := by
  induction msgs with
  | nil => exact ⟨rfl, fun cur => rfl⟩
  | cons m rest ih =>
    have hm := h m (List.mem_cons_self m rest)
    obtain ⟨ihn, ihs⟩ := ih (fun x hx => h x (List.mem_cons_of_mem _ hx))
    rw [List.flatMap_cons]
    obtain ⟨bn, bs⟩ := parseLines_msgBlock hm (rest.flatMap msgBlock)
    constructor
    · rw [bn, ihs (addTrailingNl m)]
      rfl
    · intro cur
      rw [bs cur, ihs (addTrailingNl m)]
      rfl

/-- Round trip at the decoded-message level: parsing an encoded
transcript recovers the messages, with each non-empty content gaining
exactly one trailing newline. -/
lemma parseTranscript_encodeMsgs {msgs : List Message} {ch ds : String}
    (hOk : ∀ m ∈ msgs, msgOk m = true) (hch : noNl ch = true) (hds : noNl ds = true) :
    parseTranscript (encodeMsgs msgs ch ds) = msgs.map addTrailingNl := by
  unfold parseTranscript encodeMsgs
  have hlines : ∀ s ∈ ("# " ++ ch ++ " — " ++ ds) :: "" :: msgs.flatMap msgBlock,
      noNl s = true := by
    intro s hs
    simp only [List.mem_cons] at hs
    rcases hs with h' | h' | h'
    · subst h'
      exact noNl_append (noNl_append (noNl_append (by decide) hch) (by decide)) hds
    · subst h'
      decide
    · obtain ⟨m, hmem, hline⟩ := List.mem_flatMap.mp h'
      obtain ⟨ht, ha, hanl, hcnl, _, _⟩ := msgOk_unpack (hOk m hmem)
      simp only [msgBlock, List.mem_cons, List.not_mem_nil, or_false] at hline
      rcases hline with h'' | h'' | h'' | h''
      · subst h''
        exact noNl_append (noNl_append (noNl_append (by decide) (noNl_time ht)) (by decide)) hanl
      · subst h''
        decide
      · subst h''
        exact hcnl
      · subst h''
        decide
  rw [jsSplitNl_joinNl (by simp) hlines]
  have htop : matchHeader ("# " ++ ch ++ " — " ++ ds) = none := by
    have : "# " ++ ch ++ " — " ++ ds = "# " ++ (ch ++ (" — " ++ ds)) := by
      rw [String.append_assoc, String.append_assoc]
    rw [this]
    exact matchHeader_top _
  rw [parseLines_cons_skip htop, parseLines_cons_skip matchHeader_empty]
  exact (parseLines_blocks hOk).1

lemma noNl_pad2 (n : Nat) : noNl (pad2 n) = true := by
  rw [noNl_iff]
  intro h
  simp only [pad2, List.mem_cons, List.not_mem_nil, or_false] at h
  rcases h with h' | h'
  · exact digitChar_ne_nl (Nat.mod_lt _ (by norm_num)) h'.symm
  · exact digitChar_ne_nl (Nat.mod_lt _ (by norm_num)) h'.symm

lemma noNl_pad4 (n : Nat) : noNl (pad4 n) = true := by
  rw [noNl_iff]
  intro h
  simp only [pad4, List.mem_cons, List.not_mem_nil, or_false] at h
  rcases h with h' | h' | h' | h' <;>
    exact digitChar_ne_nl (Nat.mod_lt _ (by norm_num)) h'.symm

lemma noNl_isoDate (t : Int) : noNl (isoDate t) = true := by
  unfold isoDate
  exact noNl_append (noNl_append (noNl_append (noNl_append (noNl_pad4 _) (by decide))
    (noNl_pad2 _)) (by decide)) (noNl_pad2 _)

lemma timeShape_pad2_pair (a b : Nat) : timeShape (pad2 a ++ ":" ++ pad2 b) = true := by
  have hdata : (pad2 a ++ ":" ++ pad2 b).data
      = [Nat.digitChar (a / 10 % 10), Nat.digitChar (a % 10), ':',
         Nat.digitChar (b / 10 % 10), Nat.digitChar (b % 10)] := by
    rw [String.data_append, String.data_append]
    rfl
  unfold timeShape
  rw [hdata]
  have h1 := digitChar_isDigit (Nat.mod_lt (a / 10) (by norm_num))
  have h2 := digitChar_isDigit (Nat.mod_lt a (by norm_num))
  have h3 := digitChar_isDigit (Nat.mod_lt (b / 10) (by norm_num))
  have h4 := digitChar_isDigit (Nat.mod_lt b (by norm_num))
  simp [h1, h2, h3, h4]

lemma timeShape_localeTime (t tz : Int) : timeShape (localeTimeHHMM t tz) = true := by
  unfold localeTimeHHMM
  exact timeShape_pad2_pair _ _

lemma msgOk_toMessage {m : RawMsg} (tz : Int) (h : rawOk m = true) :
    msgOk (toMessage tz m) = true := by
  simp only [rawOk, Bool.and_eq_true, Bool.not_eq_true', decide_eq_true_eq] at h
  obtain ⟨⟨⟨⟨ha, hanl⟩, hcnl⟩, hc3⟩, hc1⟩ := h
  simp only [msgOk, toMessage, Bool.and_eq_true, Bool.not_eq_true', decide_eq_true_eq]
  exact ⟨⟨⟨⟨⟨timeShape_localeTime _ _, ha⟩, hanl⟩, hcnl⟩, hc3⟩, hc1⟩

lemma formatTranscript_eq_encode (msgs : List RawMsg) (ch : String) (now tz : Int) :
    formatTranscript msgs ch now tz
      = encodeMsgs (msgs.map (toMessage tz)) ch (isoDate now) := by
  unfold formatTranscript encodeMsgs
  rw [List.flatMap_map]

/-! ### Claim C1: decode of encode -/

/-- C1, counterexample to the claim as stated: a raw message whose
content is the single line "hello" (not beginning with a heading
marker) does not decode back unchanged after encoding — the decoder
returns its content with a trailing newline, because the blank
separator line after the content block is absorbed into the content. -/
theorem C1_counterexample :
    parseTranscript (formatTranscript
        [⟨19797 * 1440 + 600, some "Bob", "u1", some "hello"⟩]
        "general" (19797 * 1440 + 700) 0)
      ≠ [⟨"10:00", "Bob", "hello"⟩] := by decide

/-- C1 (amended): for raw messages with a non-empty single-line author
and single-line content not beginning with a heading marker, decoding
the encoded transcript yields the original messages with time and
author preserved exactly, and content preserved except that each
non-empty content gains exactly one trailing newline. -/
theorem C1_round_trip (msgs : List RawMsg) (ch : String) (now tz : Int)
    (hOk : ∀ m ∈ msgs, rawOk m = true) (hch : noNl ch = true) :
    parseTranscript (formatTranscript msgs ch now tz)
      = msgs.map (fun m => addTrailingNl (toMessage tz m)) := by
  rw [formatTranscript_eq_encode]
  rw [parseTranscript_encodeMsgs (fun x hx => ?_) hch (noNl_isoDate now)]
  · rw [List.map_map]
    rfl
  · obtain ⟨m, hm, rfl⟩ := List.mem_map.mp hx
    exact msgOk_toMessage tz (hOk m hm)

/-- C1, witness: the amended round trip evaluated on a concrete
message. -/
theorem C1_round_trip_witness :
    parseTranscript (formatTranscript
        [⟨19797 * 1440 + 600, some "Bob", "u1", some "hello"⟩]
        "general" (19797 * 1440 + 700) 0)
      = [⟨"10:00", "Bob", "hello\n"⟩] :=
  (C1_round_trip [⟨19797 * 1440 + 600, some "Bob", "u1", some "hello"⟩]
    "general" (19797 * 1440 + 700) 0 (by decide) (by decide)).trans (by decide)

/-! ### Claim C2: stability of encode of decode of encode -/

/-- C2, counterexample to the claim as stated: with a fixed channel
name and date, re-encoding the decoded form of an encoded transcript
is not text-equal to the original encoding — each non-empty content
block gains a newline, so the texts differ. -/
theorem C2_counterexample :
    encodeMsgs (parseTranscript
        (encodeMsgs [⟨"10:00", "Bob", "hello"⟩] "general" "2024-03-14"))
        "general" "2024-03-14"
      ≠ encodeMsgs [⟨"10:00", "Bob", "hello"⟩] "general" "2024-03-14" := by decide

/-- C2 (amended): for well-formed messages, re-encoding the decoded
form of an encoded transcript is text-equal to the encoding of the
messages with one newline appended to each non-empty content — not to
the original encoding. -/
theorem C2_stability (msgs : List Message) (ch ds : String)
    (hOk : ∀ m ∈ msgs, msgOk m = true) (hch : noNl ch = true) (hds : noNl ds = true) :
    encodeMsgs (parseTranscript (encodeMsgs msgs ch ds)) ch ds
      = encodeMsgs (msgs.map addTrailingNl) ch ds := by
  rw [parseTranscript_encodeMsgs hOk hch hds]

/-- C2, witness: the amended stability statement evaluated on a
concrete message. -/
theorem C2_stability_witness :
    encodeMsgs (parseTranscript
        (encodeMsgs [⟨"10:00", "Bob", "hello"⟩] "general" "2024-03-14"))
        "general" "2024-03-14"
      = encodeMsgs [⟨"10:00", "Bob", "hello\n"⟩] "general" "2024-03-14" :=
  (C2_stability [⟨"10:00", "Bob", "hello"⟩] "general" "2024-03-14"
    (by decide) (by decide) (by decide)).trans (by decide)

lemma takeWhile_append_T {xs : List Char} (ys : List Char) (h : 'T' ∉ xs) :
    (xs ++ 'T' :: ys).takeWhile (fun c => c ≠ 'T') = xs := by
  induction xs with
  | nil => simp [List.takeWhile]
  | cons c cs ih =>
    have hc : c ≠ 'T' := fun hc => h (by simp [hc])
    have hcs : 'T' ∉ cs := fun hm => h (by simp [hm])
    rw [List.cons_append, List.takeWhile_cons, if_pos (by simp [hc]), ih hcs]

lemma noT_pad2 (n : Nat) : 'T' ∉ (pad2 n).data := by
  intro h
  simp only [pad2, List.mem_cons, List.not_mem_nil, or_false] at h
  rcases h with h' | h'
  · exact digitChar_ne_T (Nat.mod_lt _ (by norm_num)) h'.symm
  · exact digitChar_ne_T (Nat.mod_lt _ (by norm_num)) h'.symm

lemma noT_pad4 (n : Nat) : 'T' ∉ (pad4 n).data := by
  intro h
  simp only [pad4, List.mem_cons, List.not_mem_nil, or_false] at h
  rcases h with h' | h' | h' | h' <;>
    exact digitChar_ne_T (Nat.mod_lt _ (by norm_num)) h'.symm

lemma noT_isoDate (t : Int) : 'T' ∉ (isoDate t).data := by
  unfold isoDate
  rw [String.data_append, String.data_append, String.data_append, String.data_append]
  intro h
  simp only [List.mem_append] at h
  rcases h with ((((h' | h') | h') | h') | h')
  · exact noT_pad4 _ h'
  · simp at h'
  · exact noT_pad2 _ h'
  · simp at h'
  · exact noT_pad2 _ h'

lemma headBeforeT_append {a : String} (b : String) (ha : 'T' ∉ a.data) :
    jsHeadBeforeT (a ++ "T" ++ b) = a := by
  unfold jsHeadBeforeT
  apply String.ext
  have hd : (a ++ "T" ++ b).data = a.data ++ 'T' :: b.data := by
    rw [String.data_append, String.data_append]
    simp [List.append_assoc]
  rw [hd, takeWhile_append_T _ ha]

lemma jsHeadBeforeT_toIso (t : Int) : jsHeadBeforeT (toIso t) = isoDate t := by
  have h : toIso t = isoDate t ++ "T"
      ++ (pad2 ((t.emod 1440).toNat / 60) ++ ":" ++ pad2 ((t.emod 1440).toNat % 60)
          ++ ":00.000Z") := by
    unfold toIso
    simp [String.append_assoc]
  rw [h, headBeforeT_append _ (noT_isoDate t)]

lemma fdiv_mul_add (a : Int) {r : Int} (h0 : 0 ≤ r) (h1 : r < 1440) :
    (a * 1440 + r).fdiv 1440 = a := by
  rw [Int.fdiv_eq_ediv _ (by norm_num)]
  rw [Int.add_comm, Int.add_mul_ediv_right _ _ (by norm_num : (1440 : Int) ≠ 0)]
  rw [Int.ediv_eq_zero_of_lt h0 h1]
  omega

/-! ### Claim C3: the date window -/

/-- C3: for a reference instant whose local reading is
2024-03-15T10:00, getDateRange returns the instant of local
2024-03-14T03:45 as after, the instant of local 2024-03-15T03:00 as
before, and the label "2024-03-14"; and in general the label is the
date component of the after boundary (the piece of the rendered after
instant before its letter T, which is exactly the calendar date of
that instant), not the date of the invocation instant and not the
date of before.  The offset hypothesis keeps the UTC rendering of the
after boundary on its local calendar day. -/
theorem C3_date_window (tz : Int) (h1 : -1215 < tz) (h2 : tz ≤ 225) :
    (getDateRange (mkLocalMin 2024 3 15 10 0 tz) tz
        = ⟨toIso (mkLocalMin 2024 3 14 3 45 tz), toIso (mkLocalMin 2024 3 15 3 0 tz),
           "2024-03-14"⟩)
    ∧ (∀ now tz' : Int,
        (getDateRange now tz').dateStr = jsHeadBeforeT ((getDateRange now tz').after))
    ∧ (∀ t : Int, jsHeadBeforeT (toIso t) = isoDate t)
    ∧ (getDateRange (mkLocalMin 2024 3 15 10 0 tz) tz).dateStr
        ≠ isoDate (mkLocalMin 2024 3 15 10 0 tz + tz)
    ∧ (getDateRange (mkLocalMin 2024 3 15 10 0 tz) tz).dateStr
        ≠ isoDate (mkLocalMin 2024 3 15 3 0 tz + tz) := by
  have e1 : mkLocalMin 2024 3 15 10 0 tz + tz = 19797 * 1440 + 600 := by
    unfold mkLocalMin
    rw [show daysFromCivil 2024 3 15 = 19797 from by decide]
    ring
  have e2 : ((19797 * 1440 + 600 : Int)).fdiv 1440 = 19797 := by decide
  have eAfter : ((19797 : Int) - 1) * 1440 + 225 - tz = mkLocalMin 2024 3 14 3 45 tz := by
    unfold mkLocalMin
    rw [show daysFromCivil 2024 3 14 = 19796 from by decide]
    ring
  have eBefore : (19797 : Int) * 1440 + 180 - tz = mkLocalMin 2024 3 15 3 0 tz := by
    unfold mkLocalMin
    rw [show daysFromCivil 2024 3 15 = 19797 from by decide]
    ring
  have eAfterDay : (mkLocalMin 2024 3 14 3 45 tz).fdiv 1440 = 19796 := by
    have : mkLocalMin 2024 3 14 3 45 tz = 19796 * 1440 + (225 - tz) := by
      unfold mkLocalMin
      rw [show daysFromCivil 2024 3 14 = 19796 from by decide]
      ring
    rw [this]
    exact fdiv_mul_add _ (by omega) (by omega)
  have eIsoAfter : isoDate (mkLocalMin 2024 3 14 3 45 tz) = "2024-03-14" := by
    unfold isoDate
    rw [eAfterDay]
    decide
  have hmain : getDateRange (mkLocalMin 2024 3 15 10 0 tz) tz
      = ⟨toIso (mkLocalMin 2024 3 14 3 45 tz), toIso (mkLocalMin 2024 3 15 3 0 tz),
         "2024-03-14"⟩ := by
    unfold getDateRange
    rw [e1, e2]
    dsimp only
    rw [eAfter, eBefore, jsHeadBeforeT_toIso, eIsoAfter]
  refine ⟨hmain, fun now tz' => rfl, jsHeadBeforeT_toIso, ?_, ?_⟩
  · rw [hmain, e1]
    rw [show isoDate (19797 * 1440 + 600 : Int) = "2024-03-15" from by decide]
    show ("2024-03-14" : String) ≠ "2024-03-15"
    decide
  · rw [hmain]
    rw [show mkLocalMin 2024 3 15 3 0 tz + tz = 19797 * 1440 + 180 from by
      unfold mkLocalMin
      rw [show daysFromCivil 2024 3 15 = 19797 from by decide]
      ring]
    rw [show isoDate (19797 * 1440 + 180 : Int) = "2024-03-15" from by decide]
    show ("2024-03-14" : String) ≠ "2024-03-15"
    decide

/-- C3, witness: the window computation evaluated at offset zero. -/
theorem C3_date_window_witness :
    getDateRange (mkLocalMin 2024 3 15 10 0 0) 0
      = ⟨"2024-03-14T03:45:00.000Z", "2024-03-15T03:00:00.000Z", "2024-03-14"⟩ :=
  ((C3_date_window 0 (by decide) (by decide)).1).trans (by decide)

/-! ### Character and classifier lemmas -/

lemma char_toNat_ofNat {n : Nat} (h : n.isValidChar) : (Char.ofNat n).toNat = n := by
  rw [Char.ofNat, dif_pos h]
  rfl

lemma toLower_eq_qmark {c : Char} (h : c.toLower = '?') : c = '?' := by
  simp only [Char.toLower] at h
  split at h
  · exfalso
    rename_i hc
    have hv : (c.toNat + 32).isValidChar := by
      left
      omega
    have hn := char_toNat_ofNat hv
    rw [h] at hn
    have h63 : ('?').toNat = 63 := by decide
    omega
  · exact h

lemma containsSeq_singleton (c : Char) (l : List Char) :
    containsSeq [c] l = l.contains c := by
  induction l with
  | nil => rfl
  | cons x xs ih =>
    simp only [containsSeq, List.isPrefixOf, List.contains_cons, ih]
    cases h : c == x <;> simp [List.isPrefixOf]

lemma qmark_beq_lower (x : Char) : ('?' == x.toLower) = ('?' == x) := by
  by_cases hx : x = '?'
  · subst hx
    rfl
  · have h1 : x.toLower ≠ '?' := fun hc => hx (toLower_eq_qmark hc)
    have e1 : ('?' == x.toLower) = false :=
      beq_eq_false_iff_ne.mpr (fun he => h1 he.symm)
    have e2 : ('?' == x) = false :=
      beq_eq_false_iff_ne.mpr (fun he => hx he.symm)
    rw [e1, e2]

lemma contains_lower_qmark (l : List Char) :
    (l.map Char.toLower).contains '?' = l.contains '?' := by
  induction l with
  | nil => rfl
  | cons x xs ih =>
    simp only [List.map_cons, List.contains_cons, ih, qmark_beq_lower]

lemma isQuestionContent_eq (c : String) :
    isQuestionContent (jsToLower c)
      = (c.data.contains '?' && !containsSeq "http".data (c.data.map Char.toLower)) := by
  unfold isQuestionContent jsIncludes jsToLower
  rw [show ("?" : String).data = ['?'] from rfl]
  rw [show ((⟨c.data.map Char.toLower⟩ : String)).data = c.data.map Char.toLower from rfl]
  rw [containsSeq_singleton, contains_lower_qmark]

/-! ### Claim C4: question classification -/

/-- C4: a message is recorded as a question exactly when its content
contains a question mark and its content does not contain the
substring http in any letter case; in particular the message
"check https://x.com/search?q=1" is not recorded as a question. -/
theorem C4_questions :
    (∀ msgs : List Message,
        (summarizeChannel msgs).questions
          = (msgs.filter (fun m => m.content.data.contains '?'
              && !containsSeq "http".data (m.content.data.map Char.toLower))).map
              (fun m => ⟨m.author, jsSlice m.content 150⟩))
    ∧ (summarizeChannel [⟨"10:00", "a", "check https://x.com/search?q=1"⟩]).questions
        = [] := by
  refine ⟨?_, by decide⟩
  intro msgs
  induction msgs with
  | nil => rfl
  | cons m rest ih =>
    simp only [summarizeChannel]
    rw [List.filter_cons]
    by_cases h : (m.content.data.contains '?'
        && !containsSeq "http".data (m.content.data.map Char.toLower)) = true
    · rw [isQuestionContent_eq, h, if_pos rfl]
      simp [ih, h]
    · have hf : (m.content.data.contains '?'
          && !containsSeq "http".data (m.content.data.map Char.toLower)) = false := by
        simpa using h
      rw [isQuestionContent_eq, hf]
      simp [ih, hf]

/-! ### Section truncation lemmas for the renderer -/

lemma decisionSection_trunc (s : SignalSet) :
    decisionSection (truncateSet s) = decisionSection s := by
  unfold decisionSection truncateSet
  dsimp only
  by_cases h : s.decisions = []
  · simp [h]
  · have hl : s.decisions.length > 0 := List.length_pos.mpr h
    have hl5 : (s.decisions.take 5).length > 0 := by
      rw [List.length_take]
      exact Nat.lt_min.mpr ⟨by norm_num, hl⟩
    rw [if_pos hl5, if_pos hl, List.take_take]
    norm_num

lemma actionSection_trunc (s : SignalSet) :
    actionSection (truncateSet s) = actionSection s := by
  unfold actionSection truncateSet
  dsimp only
  by_cases h : s.actions = []
  · simp [h]
  · have hl : s.actions.length > 0 := List.length_pos.mpr h
    have hl5 : (s.actions.take 5).length > 0 := by
      rw [List.length_take]
      exact Nat.lt_min.mpr ⟨by norm_num, hl⟩
    rw [if_pos hl5, if_pos hl, List.take_take]
    norm_num

lemma linkSection_trunc (s : SignalSet) :
    linkSection (truncateSet s) = linkSection s := by
  unfold linkSection truncateSet
  dsimp only
  by_cases h : s.links = []
  · simp [h]
  · have hl : s.links.length > 0 := List.length_pos.mpr h
    have hl10 : (s.links.take 10).length > 0 := by
      rw [List.length_take]
      exact Nat.lt_min.mpr ⟨by norm_num, hl⟩
    rw [if_pos hl10, if_pos hl, List.take_take]
    norm_num

lemma questionSection_trunc (s : SignalSet) :
    questionSection (truncateSet s) = questionSection s := by
  unfold questionSection truncateSet
  dsimp only
  by_cases h : s.questions = []
  · simp [h]
  · have hl : s.questions.length > 0 := List.length_pos.mpr h
    have hl5 : (s.questions.take 5).length > 0 := by
      rw [List.length_take]
      exact Nat.lt_min.mpr ⟨by norm_num, hl⟩
    rw [if_pos hl5, if_pos hl, List.take_take]
    norm_num

/-! ### Claim C5: per-category caps -/

set_option maxRecDepth 100000 in
/-- C5: the rendered summary depends on a SignalSet only through the
prefixes of its categories at the fixed caps (five decisions, five
actions, ten links, five questions) — the caps always keep the first
entries in original order; and seven decision-matching messages
produce exactly the first five decision bullets. -/
theorem C5_caps :
    (∀ (ch : String) (msgs : List Message) (s : SignalSet),
        formatSummary ch msgs (truncateSet s) = formatSummary ch msgs s)
    ∧ formatSummary "c"
        [⟨"10:00", "a0", "decided 0"⟩, ⟨"10:01", "a1", "decided 1"⟩,
         ⟨"10:02", "a2", "decided 2"⟩, ⟨"10:03", "a3", "decided 3"⟩,
         ⟨"10:04", "a4", "decided 4"⟩, ⟨"10:05", "a5", "decided 5"⟩,
         ⟨"10:06", "a6", "decided 6"⟩]
        (summarizeChannel
          [⟨"10:00", "a0", "decided 0"⟩, ⟨"10:01", "a1", "decided 1"⟩,
           ⟨"10:02", "a2", "decided 2"⟩, ⟨"10:03", "a3", "decided 3"⟩,
           ⟨"10:04", "a4", "decided 4"⟩, ⟨"10:05", "a5", "decided 5"⟩,
           ⟨"10:06", "a6", "decided 6"⟩])
      = "# c — Summary\n\n**Messages:** 7\n\n---\n\n## Key Decisions\n\n- **a0**: decided 0...\n- **a1**: decided 1...\n- **a2**: decided 2...\n- **a3**: decided 3...\n- **a4**: decided 4...\n" := by
  constructor
  · intro ch msgs s
    unfold formatSummary
    rw [decisionSection_trunc, actionSection_trunc, linkSection_trunc, questionSection_trunc]
  · decide

/-! ### Claim C6: the skip rule of the summarizer -/

/-- C6: the per-file summarizer step produces a summary exactly when
the decoded message count is at least three; a transcript with two
decoded messages produces none and one with three produces one. -/
theorem C6_skip_rule :
    (∀ ch content : String,
        (summarizeFile ch content).isSome = true ↔ 3 ≤ (parseTranscript content).length)
    ∧ summarizeFile "c" "### 10:00 — a\n\nhi\n### 10:01 — b\n\nyo" = none
    ∧ (summarizeFile "c"
        "### 10:00 — a\n\nhi\n### 10:01 — b\n\nyo\n### 10:02 — c\n\nok").isSome = true := by
  refine ⟨?_, by decide, by decide⟩
  intro ch content
  unfold summarizeFile
  by_cases h : (parseTranscript content).length < 3
  · simp only [h, if_true]
    simp
    omega
  · simp only [h, if_false]
    simp
    omega

/-! ### Claim C7: the two truncation layers -/

/-- C7: extraction stores the first 200 characters of a decision or
action content, and rendering emits a bullet of the bold author, the
first 150 characters of that stored 200-character excerpt, then an
ellipsis — both layers visible end to end. -/
theorem C7_dual_truncation :
    (∀ msgs : List Message,
        (summarizeChannel msgs).decisions
          = (msgs.filter (fun m => isDecisionContent (jsToLower m.content))).map
              (fun m => ⟨m.author, jsSlice m.content 200⟩))
    ∧ (∀ msgs : List Message,
        (summarizeChannel msgs).actions
          = (msgs.filter (fun m => isActionContent (jsToLower m.content))).map
              (fun m => ⟨m.author, jsSlice m.content 200⟩))
    ∧ (∀ msgs : List Message,
        decisionSection (summarizeChannel msgs)
          = if (summarizeChannel msgs).decisions.length > 0 then
              "## Key Decisions" :: "" ::
                ((msgs.filter (fun m => isDecisionContent (jsToLower m.content))).take 5).map
                  (fun m => "- **" ++ m.author ++ "**: "
                    ++ jsSlice (jsSlice m.content 200) 150 ++ "...") ++ [""]
            else [])
    ∧ (∀ msgs : List Message,
        actionSection (summarizeChannel msgs)
          = if (summarizeChannel msgs).actions.length > 0 then
              "## Action Items" :: "" ::
                ((msgs.filter (fun m => isActionContent (jsToLower m.content))).take 5).map
                  (fun m => "- **" ++ m.author ++ "**: "
                    ++ jsSlice (jsSlice m.content 200) 150 ++ "...") ++ [""]
            else []) := by
  have hdec : ∀ msgs : List Message,
      (summarizeChannel msgs).decisions
        = (msgs.filter (fun m => isDecisionContent (jsToLower m.content))).map
            (fun m => ⟨m.author, jsSlice m.content 200⟩) := by
    intro msgs
    induction msgs with
    | nil => rfl
    | cons m rest ih =>
      simp only [summarizeChannel]
      rw [List.filter_cons]
      by_cases h : isDecisionContent (jsToLower m.content) = true
      · simp [ih, h]
      · have hf : isDecisionContent (jsToLower m.content) = false := by simpa using h
        simp [ih, hf]
  have hact : ∀ msgs : List Message,
      (summarizeChannel msgs).actions
        = (msgs.filter (fun m => isActionContent (jsToLower m.content))).map
            (fun m => ⟨m.author, jsSlice m.content 200⟩) := by
    intro msgs
    induction msgs with
    | nil => rfl
    | cons m rest ih =>
      simp only [summarizeChannel]
      rw [List.filter_cons]
      by_cases h : isActionContent (jsToLower m.content) = true
      · simp [ih, h]
      · have hf : isActionContent (jsToLower m.content) = false := by simpa using h
        simp [ih, hf]
  refine ⟨hdec, hact, ?_, ?_⟩
  · intro msgs
    unfold decisionSection
    rw [hdec msgs, ← List.map_take, List.map_map]
    rfl
  · intro msgs
    unfold actionSection
    rw [hact msgs, ← List.map_take, List.map_map]
    rfl

/-! ### Claim C8: the trailing open message -/

lemma parseLines_noheader {ls : List String} (h : ∀ l ∈ ls, matchHeader l = none)
    (m : Message) : parseLines ls (some m) = [contentFold m ls] := by
  induction ls generalizing m with
  | nil => rfl
  | cons l ls ih =>
    have hl := h l (by simp)
    have hls : ∀ x ∈ ls, matchHeader x = none :=
      fun x hx => h x (List.mem_cons_of_mem _ hx)
    simp only [parseLines, hl]
    by_cases hs : jsStartsWith l "# " = true
    · simp only [hs, if_true, ih hls]
      unfold contentFold
      rw [List.foldl_cons]
      simp [hs]
    · have hsf : jsStartsWith l "# " = false := by simpa using hs
      simp only [hsf, Bool.false_eq_true, if_false, ih hls]
      unfold contentFold
      rw [List.foldl_cons]
      simp [hsf]

lemma contentFold_fields (ls : List String) (m : Message) :
    (contentFold m ls).time = m.time ∧ (contentFold m ls).author = m.author := by
  induction ls generalizing m with
  | nil => exact ⟨rfl, rfl⟩
  | cons l ls ih =>
    unfold contentFold
    rw [List.foldl_cons]
    have := ih (if jsStartsWith l "# " then m
      else { m with content := appendContent m.content l })
    unfold contentFold at this
    constructor
    · refine this.1.trans ?_
      by_cases hs : jsStartsWith l "# " = true <;> simp [hs]
    · refine this.2.trans ?_
      by_cases hs : jsStartsWith l "# " = true <;> simp [hs]

lemma parseLines_last_general {post : List String}
    (hpost : ∀ x ∈ post, matchHeader x = none) {l t a : String}
    (hl : matchHeader l = some (t, a)) :
    ∀ (pre : List String) (cur : Option Message),
      (parseLines (pre ++ l :: post) cur).getLast?
        = some (contentFold ⟨t, a, ""⟩ post) := by
  intro pre
  induction pre with
  | nil =>
    intro cur
    cases cur with
    | none =>
      simp only [List.nil_append, parseLines, hl]
      rw [parseLines_noheader hpost]
      rfl
    | some m =>
      simp only [List.nil_append, parseLines, hl]
      rw [parseLines_noheader hpost]
      rfl
  | cons p pre ih =>
    intro cur
    rw [List.cons_append]
    cases hp : matchHeader p with
    | some ta =>
      obtain ⟨t', a'⟩ := ta
      cases cur with
      | none =>
        simp only [parseLines, hp]
        exact ih _
      | some m =>
        simp only [parseLines, hp]
        have hrec := ih (some ⟨t', a', ""⟩)
        cases hrest : parseLines (pre ++ l :: post) (some ⟨t', a', ""⟩) with
        | nil =>
          rw [hrest] at hrec
          simp at hrec
        | cons y ys =>
          rw [hrest] at hrec
          rw [List.getLast?_cons_cons]
          exact hrec
    | none =>
      cases cur with
      | none =>
        simp only [parseLines, hp]
        exact ih none
      | some m =>
        simp only [parseLines, hp]
        by_cases hs : jsStartsWith p "# " = true
        · simp only [hs, if_true]
          exact ih _
        · have hsf : jsStartsWith p "# " = false := by simpa using hs
          simp only [hsf, Bool.false_eq_true, if_false]
          exact ih _

/-- C8: if the line scan of a text contains a header line after which
no further line is a header, the message that header opens is still
open at end of input and is emitted as the last decoded message —
decoding never silently drops a trailing message. -/
theorem C8_trailing_message (s : String) (pre post : List String) (l t a : String)
    (hsplit : jsSplitNl s = pre ++ l :: post)
    (hl : matchHeader l = some (t, a))
    (hpost : ∀ x ∈ post, matchHeader x = none) :
    ∃ c : String, (parseTranscript s).getLast? = some ⟨t, a, c⟩ := by
  obtain ⟨h1, h2⟩ := contentFold_fields post ⟨t, a, ""⟩
  refine ⟨(contentFold ⟨t, a, ""⟩ post).content, ?_⟩
  unfold parseTranscript
  rw [hsplit, parseLines_last_general hpost hl pre none]
  congr 1
  cases hcf : contentFold ⟨t, a, ""⟩ post with
  | mk mt ma mc =>
    rw [hcf] at h1 h2
    simp only at h1 h2
    rw [h1, h2]

/-- C8, witness: the trailing-message property evaluated on a concrete
transcript whose last message has no closing heading. -/
theorem C8_trailing_message_witness :
    ∃ c : String, (parseTranscript "### 10:00 — Bob\n\nhi there").getLast?
      = some ⟨"10:00", "Bob", c⟩ :=
  C8_trailing_message "### 10:00 — Bob\n\nhi there" [] ["", "hi there"]
    "### 10:00 — Bob" "10:00" "Bob" (by decide) (by decide) (by decide)

/-! ### Claim C9: the ambient clock -/

/-- C9, counterexample to the claim as stated: formatTranscript and
getDateRange read the ambient clock internally (new Date); with every
code-level argument fixed, two runs at different instants give
different results, so output is not independent of when the code
runs. -/
theorem C9_counterexample :
    formatTranscript [] "general" 0 0 ≠ formatTranscript [] "general" 1440 0
      ∧ getDateRange 0 0 ≠ getDateRange 1440 0 := by
  constructor <;> decide

/-- C9 (amended): with the ambient clock modelled as an explicit
instant parameter, both computations are pure functions of their
arguments: the encoder depends on the instant only through its UTC
calendar date, and the window calculator only through the local
calendar day of the instant. -/
theorem C9_determinism :
    (∀ (msgs : List RawMsg) (ch : String) (t1 t2 tz : Int), isoDate t1 = isoDate t2 →
        formatTranscript msgs ch t1 tz = formatTranscript msgs ch t2 tz)
    ∧ (∀ t1 t2 tz : Int, (t1 + tz).fdiv 1440 = (t2 + tz).fdiv 1440 →
        getDateRange t1 tz = getDateRange t2 tz) := by
  constructor
  · intro msgs ch t1 t2 tz h
    unfold formatTranscript
    rw [h]
  · intro t1 t2 tz h
    unfold getDateRange
    rw [h]

/-- C9, witness: determinism applied at two instants of the same
day. -/
theorem C9_determinism_witness :
    formatTranscript [] "general" 0 0 = formatTranscript [] "general" 60 0
      ∧ getDateRange 0 0 = getDateRange 60 0 :=
  ⟨C9_determinism.1 [] "general" 0 60 0 (by decide),
   C9_determinism.2 0 60 0 (by decide)⟩

/-! ### Claim C10: empty fetch writes nothing -/

/-- C10: the per-channel collector step produces no transcript text
when the fetched message list is empty, and produces one exactly when
it is non-empty. -/
theorem C10_empty_skip :
    (∀ (ch : String) (now tz : Int), collectChannel [] ch now tz = none)
    ∧ ∀ (msgs : List RawMsg) (ch : String) (now tz : Int),
        (collectChannel msgs ch now tz).isSome = true ↔ msgs ≠ [] := by
  constructor
  · intro ch now tz
    rfl
  · intro msgs ch now tz
    unfold collectChannel
    by_cases h : msgs.length = 0
    · have : msgs = [] := List.length_eq_zero.mp h
      simp [h, this]
    · have : msgs ≠ [] := fun he => h (by simp [he])
      simp [h, this]

end BearKnowledge
